import Mathlib

/-!
Verification of the scrape-and-relabel pipeline of the ilogtail agent.

Shallow embedding of:
- the size-tracked tag containers (SizedMap and the StringView-pair
  specialization of SizedVector) from models/SizedContainer.h;
- the Prometheus relabel processor (ProcessorPromRelabelMetricNative.cpp);
- the remote-write serializer (RemoteWriteSerializer.cpp);
- the event pool (modelled from the spec and EventPoolUnittest.cpp, since
  models/EventPool.cpp itself is not among the given sources).

Machine size_t arithmetic is embedded as Nat with explicit reduction
modulo 2^64 wherever the C++ code performs size_t addition or subtraction.
-/

namespace Ilogtail

/-- the modulus of size_t arithmetic -/
def u64 : Nat := 2 ^ 64

theorem u64_pos : 0 < u64 := by decide

instance : NeZero u64 := ⟨by decide⟩

/-- wrapping size_t addition -/
def uadd (a b : Nat) : Nat := (a + b) % u64

/-- wrapping size_t subtraction -/
def usub (a b : Nat) : Nat := (a % u64 + (u64 - b % u64)) % u64

theorem uadd_lt (a b : Nat) : uadd a b < u64 := Nat.mod_lt _ u64_pos

theorem usub_lt (a b : Nat) : usub a b < u64 := Nat.mod_lt _ u64_pos

theorem uadd_cast (a b : Nat) : ((uadd a b : Nat) : ZMod u64) = (a : ZMod u64) + b := by
  simp [uadd, ZMod.natCast_mod]

theorem usub_cast (a b : Nat) : ((usub a b : Nat) : ZMod u64) = (a : ZMod u64) - b := by
  have hle : b % u64 ≤ u64 := le_of_lt (Nat.mod_lt _ u64_pos)
  have h1 : ((usub a b : Nat) : ZMod u64)
      = ((a % u64 : Nat) : ZMod u64) + ((u64 - b % u64 : Nat) : ZMod u64) := by
    simp [usub, ZMod.natCast_mod]
  rw [h1, Nat.cast_sub hle, ZMod.natCast_self, ZMod.natCast_mod, ZMod.natCast_mod]
  ring

/-! Association-list primitives shared by the tag containers. -/

/-- value of the first entry whose key equals k -/
def lookupFirst (k : String) : List (String × String) → Option String
  | [] => none
  | e :: rest => if e.1 = k then some e.2 else lookupFirst k rest

/-- first entry whose key equals k -/
def findPair (k : String) : List (String × String) → Option (String × String)
  | [] => none
  | e :: rest => if e.1 = k then some e else findPair k rest

/-- replace the value of the first entry whose key equals k -/
def replaceFirst (k v : String) : List (String × String) → List (String × String)
  | [] => []
  | e :: rest => if e.1 = k then (e.1, v) :: rest else e :: replaceFirst k v rest

/-- erase the first entry whose key equals k -/
def eraseFirst (k : String) : List (String × String) → List (String × String)
  | [] => []
  | e :: rest => if e.1 = k then rest else e :: eraseFirst k rest

/-- sum of the name and value byte lengths over all live entries -/
def liveSum (l : List (String × String)) : Nat :=
  (l.map fun e => e.1.length + e.2.length).sum

theorem liveSum_nil : liveSum [] = 0 := rfl

theorem liveSum_cons (e : String × String) (l : List (String × String)) :
    liveSum (e :: l) = e.1.length + e.2.length + liveSum l := by
  simp [liveSum]

theorem liveSum_append_single (l : List (String × String)) (e : String × String) :
    liveSum (l ++ [e]) = liveSum l + (e.1.length + e.2.length) := by
  simp [liveSum]

theorem liveSum_replaceFirst (k v v0 : String) (l : List (String × String))
    (h : lookupFirst k l = some v0) :
    liveSum (replaceFirst k v l) + v0.length = liveSum l + v.length := by
  induction l with
  | nil => simp [lookupFirst] at h
  | cons e rest ih =>
    by_cases hk : e.1 = k
    · simp [lookupFirst, hk] at h
      subst h
      simp [replaceFirst, hk, liveSum_cons]
      omega
    · simp [lookupFirst, hk] at h
      have hih := ih h
      simp [replaceFirst, hk, liveSum_cons]
      omega

theorem liveSum_eraseFirst (k : String) (e : String × String) (l : List (String × String))
    (h : findPair k l = some e) :
    liveSum (eraseFirst k l) + (e.1.length + e.2.length) = liveSum l := by
  induction l with
  | nil => simp [findPair] at h
  | cons x rest ih =>
    by_cases hk : x.1 = k
    · simp [findPair, hk] at h
      subst h
      simp [eraseFirst, hk, liveSum_cons]
      omega
    · simp [findPair, hk] at h
      have hih := ih h
      simp [eraseFirst, hk, liveSum_cons]
      omega

theorem liveSum_set (l : List (String × String)) (i : Nat) (k : String) (e : String × String)
    (h : l[i]? = some e) :
    liveSum (l.set i (k, e.2)) + e.1.length = liveSum l + k.length := by
  induction l generalizing i with
  | nil => simp at h
  | cons x rest ih =>
    cases i with
    | zero =>
      simp at h
      subst h
      simp [liveSum_cons]
      omega
    | succ j =>
      simp at h
      have hih := ih j h
      simp [List.set, liveSum_cons]
      omega

/-! Embedding of the StringView-pair specialization of SizedVector
(models/SizedContainer.h). The field mInner is the backing
std::vector of (name, value) pairs; mAllocatedSize is the tracked size. -/

structure SizedVectorSV where
  mInner : List (String × String)
  mAllocatedSize : Nat

namespace SizedVectorSV

def empty : SizedVectorSV := ⟨[], 0⟩

/-- Insert of the SizedVector specialization: replace the value of the
first matching key, adjusting the size by the value-length delta, else
append and add both lengths -/
def Insert (c : SizedVectorSV) (k v : String) : SizedVectorSV :=
  match lookupFirst k c.mInner with
  | some v0 =>
      { mInner := replaceFirst k v c.mInner,
        mAllocatedSize := uadd c.mAllocatedSize (usub v.length v0.length) }
  | none =>
      { mInner := c.mInner ++ [(k, v)],
        mAllocatedSize := uadd c.mAllocatedSize (uadd k.length v.length) }

/-- PushBack appends unconditionally and adds both lengths -/
def PushBack (c : SizedVectorSV) (k v : String) : SizedVectorSV :=
  { mInner := c.mInner ++ [(k, v)],
    mAllocatedSize := uadd c.mAllocatedSize (uadd k.length v.length) }

/-- SetNameByIndex renames the entry at the index in place when the index
is in range and adjusts the size by the name-length delta -/
def SetNameByIndex (c : SizedVectorSV) (index : Nat) (newKey : String) : SizedVectorSV :=
  match c.mInner[index]? with
  | some e =>
      { mInner := c.mInner.set index (newKey, e.2),
        mAllocatedSize := uadd (usub c.mAllocatedSize e.1.length) newKey.length }
  | none => c

/-- Erase removes the first matching entry and subtracts its contribution -/
def Erase (c : SizedVectorSV) (k : String) : SizedVectorSV :=
  match findPair k c.mInner with
  | some e =>
      { mInner := eraseFirst k c.mInner,
        mAllocatedSize := usub c.mAllocatedSize (uadd e.1.length e.2.length) }
  | none => c

/-- the accumulation step of FinalizeItems -/
def finalizeStep (acc : Nat) (e : String × String) : Nat :=
  uadd acc (uadd e.1.length e.2.length)

/-- FinalizeItems keeps only entries satisfying the predicate in one
forward pass and recomputes the size over the kept entries only -/
def FinalizeItems (c : SizedVectorSV) (isValid : String × String → Bool) : SizedVectorSV :=
  { mInner := c.mInner.filter isValid,
    mAllocatedSize := (c.mInner.filter isValid).foldl finalizeStep 0 }

/-- sizeof of the backing std::vector object, a fixed container overhead -/
def sizeofStdVector : Nat := 24

def DataSize (c : SizedVectorSV) : Nat := uadd sizeofStdVector c.mAllocatedSize

def Clear (_ : SizedVectorSV) : SizedVectorSV := ⟨[], 0⟩

end SizedVectorSV

/-- a mutating operation on the SizedVector specialization -/
inductive VecOp where
  | insert (k v : String)
  | pushBack (k v : String)
  | setNameByIndex (i : Nat) (k : String)
  | erase (k : String)
  | finalizeItems (isValid : String × String → Bool)
  | clear

def vecStep (c : SizedVectorSV) : VecOp → SizedVectorSV
  | .insert k v => c.Insert k v
  | .pushBack k v => c.PushBack k v
  | .setNameByIndex i k => c.SetNameByIndex i k
  | .erase k => c.Erase k
  | .finalizeItems p => c.FinalizeItems p
  | .clear => c.Clear

/-- run a sequence of operations from the empty container -/
def runVec (ops : List VecOp) : SizedVectorSV :=
  ops.foldl vecStep SizedVectorSV.empty

/-! Embedding of SizedMap (models/SizedContainer.h). The backing std::map
is modelled as an association list with unique keys; only key lookup and
the tracked size are observed by the claims. -/

structure SizedMap where
  mInner : List (String × String)
  mAllocatedSize : Nat

namespace SizedMap

def empty : SizedMap := ⟨[], 0⟩

/-- Insert of SizedMap: assign the value when the key exists, adjusting
the size by the value-length delta, else insert and add both lengths -/
def Insert (c : SizedMap) (k v : String) : SizedMap :=
  match lookupFirst k c.mInner with
  | some v0 =>
      { mInner := replaceFirst k v c.mInner,
        mAllocatedSize := uadd c.mAllocatedSize (usub v.length v0.length) }
  | none =>
      { mInner := c.mInner ++ [(k, v)],
        mAllocatedSize := uadd c.mAllocatedSize (uadd k.length v.length) }

/-- Erase removes the entry with the key and subtracts the sizes of its
stored key and value -/
def Erase (c : SizedMap) (k : String) : SizedMap :=
  match findPair k c.mInner with
  | some e =>
      { mInner := eraseFirst k c.mInner,
        mAllocatedSize := usub c.mAllocatedSize (uadd e.1.length e.2.length) }
  | none => c

/-- sizeof of the backing std::map object, a fixed container overhead -/
def sizeofStdMap : Nat := 48

def DataSize (c : SizedMap) : Nat := uadd sizeofStdMap c.mAllocatedSize

def Clear (_ : SizedMap) : SizedMap := ⟨[], 0⟩

end SizedMap

/-- a mutating operation on SizedMap -/
inductive MapOp where
  | insert (k v : String)
  | erase (k : String)
  | clear

def mapStep (c : SizedMap) : MapOp → SizedMap
  | .insert k v => c.Insert k v
  | .erase k => c.Erase k
  | .clear => c.Clear

def runMap (ops : List MapOp) : SizedMap :=
  ops.foldl mapStep SizedMap.empty

/-! Size-tracking invariant: the tracked size always agrees with the live
sum modulo 2^64 and stays below 2^64. -/

def vecGood (c : SizedVectorSV) : Prop :=
  ((c.mAllocatedSize : Nat) : ZMod u64) = ((liveSum c.mInner : Nat) : ZMod u64)
    ∧ c.mAllocatedSize < u64

def mapGood (c : SizedMap) : Prop :=
  ((c.mAllocatedSize : Nat) : ZMod u64) = ((liveSum c.mInner : Nat) : ZMod u64)
    ∧ c.mAllocatedSize < u64

theorem finalize_fold_good (l : List (String × String)) (a : Nat) (ha : a < u64) :
    ((l.foldl SizedVectorSV.finalizeStep a : Nat) : ZMod u64)
        = (a : ZMod u64) + ((liveSum l : Nat) : ZMod u64)
      ∧ l.foldl SizedVectorSV.finalizeStep a < u64 := by
  induction l generalizing a with
  | nil => simp [liveSum_nil, ha]
  | cons e rest ih =>
    have hstep : SizedVectorSV.finalizeStep a e < u64 := uadd_lt _ _
    obtain ⟨h1, h2⟩ := ih (SizedVectorSV.finalizeStep a e) hstep
    refine ⟨?_, by simpa using h2⟩
    have hc : ((SizedVectorSV.finalizeStep a e : Nat) : ZMod u64)
        = (a : ZMod u64) + ((e.1.length + e.2.length : Nat) : ZMod u64) := by
      simp [SizedVectorSV.finalizeStep, uadd_cast]
    simp only [List.foldl_cons]
    rw [h1, hc, liveSum_cons]
    push_cast
    ring

theorem vecStep_good (c : SizedVectorSV) (op : VecOp) (h : vecGood c) :
    vecGood (vecStep c op) := by
  obtain ⟨hz, hlt⟩ := h
  cases op with
  | insert k v =>
    simp only [vecStep, SizedVectorSV.Insert]
    cases hfind : lookupFirst k c.mInner with
    | some v0 =>
      refine ⟨?_, uadd_lt _ _⟩
      have hrepl := liveSum_replaceFirst k v v0 c.mInner hfind
      have hreplz : ((liveSum (replaceFirst k v c.mInner) : Nat) : ZMod u64)
          + (v0.length : ZMod u64)
          = ((liveSum c.mInner : Nat) : ZMod u64) + (v.length : ZMod u64) := by
        have := congrArg (fun n => ((n : Nat) : ZMod u64)) hrepl
        push_cast at this
        linear_combination this
      simp only [hfind]
      rw [uadd_cast, usub_cast, hz]
      linear_combination -hreplz
    | none =>
      refine ⟨?_, uadd_lt _ _⟩
      simp only [hfind]
      rw [uadd_cast, uadd_cast, hz, liveSum_append_single]
      push_cast
      ring
  | pushBack k v =>
    refine ⟨?_, uadd_lt _ _⟩
    simp only [vecStep, SizedVectorSV.PushBack]
    rw [uadd_cast, uadd_cast, hz, liveSum_append_single]
    push_cast
    ring
  | setNameByIndex i k =>
    simp only [vecStep, SizedVectorSV.SetNameByIndex]
    cases hget : c.mInner[i]? with
    | some e =>
      refine ⟨?_, uadd_lt _ _⟩
      have hset := liveSum_set c.mInner i k e hget
      have hsetz : ((liveSum (c.mInner.set i (k, e.2)) : Nat) : ZMod u64)
          + (e.1.length : ZMod u64)
          = ((liveSum c.mInner : Nat) : ZMod u64) + (k.length : ZMod u64) := by
        have := congrArg (fun n => ((n : Nat) : ZMod u64)) hset
        push_cast at this
        linear_combination this
      simp only [hget]
      rw [uadd_cast, usub_cast, hz]
      linear_combination -hsetz
    | none => exact ⟨hz, hlt⟩
  | erase k =>
    simp only [vecStep, SizedVectorSV.Erase]
    cases hfind : findPair k c.mInner with
    | some e =>
      refine ⟨?_, usub_lt _ _⟩
      have hers := liveSum_eraseFirst k e c.mInner hfind
      have hersz : ((liveSum (eraseFirst k c.mInner) : Nat) : ZMod u64)
          + ((e.1.length + e.2.length : Nat) : ZMod u64)
          = ((liveSum c.mInner : Nat) : ZMod u64) := by
        have := congrArg (fun n => ((n : Nat) : ZMod u64)) hers
        push_cast at this
        push_cast
        linear_combination this
      simp only [hfind]
      rw [usub_cast, uadd_cast, hz]
      push_cast at hersz ⊢
      linear_combination -hersz
    | none => exact ⟨hz, hlt⟩
  | finalizeItems p =>
    obtain ⟨h1, h2⟩ :=
      finalize_fold_good (c.mInner.filter p) 0 u64_pos
    refine ⟨?_, h2⟩
    simp only [vecStep, SizedVectorSV.FinalizeItems]
    rw [h1]
    simp
  | clear =>
    simp [vecStep, SizedVectorSV.Clear, vecGood, liveSum_nil, u64_pos]

theorem mapStep_good (c : SizedMap) (op : MapOp) (h : mapGood c) :
    mapGood (mapStep c op) := by
  obtain ⟨hz, hlt⟩ := h
  cases op with
  | insert k v =>
    simp only [mapStep, SizedMap.Insert]
    cases hfind : lookupFirst k c.mInner with
    | some v0 =>
      refine ⟨?_, uadd_lt _ _⟩
      have hrepl := liveSum_replaceFirst k v v0 c.mInner hfind
      have hreplz : ((liveSum (replaceFirst k v c.mInner) : Nat) : ZMod u64)
          + (v0.length : ZMod u64)
          = ((liveSum c.mInner : Nat) : ZMod u64) + (v.length : ZMod u64) := by
        have := congrArg (fun n => ((n : Nat) : ZMod u64)) hrepl
        push_cast at this
        linear_combination this
      simp only [hfind]
      rw [uadd_cast, usub_cast, hz]
      linear_combination -hreplz
    | none =>
      refine ⟨?_, uadd_lt _ _⟩
      simp only [hfind]
      rw [uadd_cast, uadd_cast, hz, liveSum_append_single]
      push_cast
      ring
  | erase k =>
    simp only [mapStep, SizedMap.Erase]
    cases hfind : findPair k c.mInner with
    | some e =>
      refine ⟨?_, usub_lt _ _⟩
      have hers := liveSum_eraseFirst k e c.mInner hfind
      have hersz : ((liveSum (eraseFirst k c.mInner) : Nat) : ZMod u64)
          + ((e.1.length + e.2.length : Nat) : ZMod u64)
          = ((liveSum c.mInner : Nat) : ZMod u64) := by
        have := congrArg (fun n => ((n : Nat) : ZMod u64)) hers
        push_cast at this
        push_cast
        linear_combination this
      simp only [hfind]
      rw [usub_cast, uadd_cast, hz]
      push_cast at hersz ⊢
      linear_combination -hersz
    | none => exact ⟨hz, hlt⟩
  | clear =>
    simp [mapStep, SizedMap.Clear, mapGood, liveSum_nil, u64_pos]

theorem foldl_vec_good (l : List VecOp) (c : SizedVectorSV) (hc : vecGood c) :
    vecGood (l.foldl vecStep c) := by
  induction l generalizing c with
  | nil => exact hc
  | cons op rest ih => exact ih _ (vecStep_good _ _ hc)

theorem foldl_map_good (l : List MapOp) (c : SizedMap) (hc : mapGood c) :
    mapGood (l.foldl mapStep c) := by
  induction l generalizing c with
  | nil => exact hc
  | cons op rest ih => exact ih _ (mapStep_good _ _ hc)

theorem runVec_good (ops : List VecOp) : vecGood (runVec ops) := by
  have base : vecGood SizedVectorSV.empty := by
    simp [vecGood, SizedVectorSV.empty, liveSum_nil, u64_pos]
  exact foldl_vec_good ops SizedVectorSV.empty base

theorem runMap_good (ops : List MapOp) : mapGood (runMap ops) := by
  have base : mapGood SizedMap.empty := by
    simp [mapGood, SizedMap.empty, liveSum_nil, u64_pos]
  exact foldl_map_good ops SizedMap.empty base

theorem zmod_eq_of_lt {a b : Nat} (hab : ((a : Nat) : ZMod u64) = ((b : Nat) : ZMod u64))
    (ha : a < u64) (hb : b < u64) : a = b := by
  have := congrArg ZMod.val hab
  rwa [ZMod.val_cast_of_lt ha, ZMod.val_cast_of_lt hb] at this

/-! Data model of the relabel processor
(plugin/processor/inner/ProcessorPromRelabelMetricNative.cpp). Event tag
containers are observed by the claims only through key lookup, so they are
embedded as association lists with unique keys; the tracked-size aspect of
the containers is covered by the SizedMap and SizedVectorSV embeddings
above. -/

/-- the prometheus::NAME label key -/
def NAME : String := "__name__"

/-- the prometheus::EXPORTED_PREFIX rename applied on label collisions -/
def exportedKey (k : String) : String := "exported_" ++ k

def SCRAPE_DURATION_SECONDS : String := "scrape_duration_seconds"

def SCRAPE_RESPONSE_SIZE_BYTES : String := "scrape_response_size_bytes"

def SCRAPE_SAMPLES_LIMIT : String := "scrape_samples_limit"

def SCRAPE_SAMPLES_SCRAPED : String := "scrape_samples_scraped"

def SCRAPE_TIMEOUT_SECONDS : String := "scrape_timeout_seconds"

def SCRAPE_STATE : String := "scrape_state"

def UP : String := "up"

def METRIC_LABEL_KEY_STATUS : String := "status"

/-- SetTag semantics of the tag containers: assign the value when the key
exists, else add the entry -/
def setTag (l : List (String × String)) (k v : String) : List (String × String) :=
  match lookupFirst k l with
  | some _ => replaceFirst k v l
  | none => l ++ [(k, v)]

/-- GetTag semantics: absent keys read as the empty string -/
def getTagD (l : List (String × String)) (k : String) : String :=
  (lookupFirst k l).getD ""

def hasTag (l : List (String × String)) (k : String) : Bool :=
  (lookupFirst k l).isSome

/-- a MetricEvent: name, untyped single value, timestamp in seconds plus a
nanosecond component, and a tag container -/
structure MetricEvent where
  name : String
  value : Rat
  timestamp : Nat
  nanoSec : Nat
  tags : List (String × String)
deriving DecidableEq

/-- a PipelineEventPtr is either a metric event or some other event variant -/
inductive PipelineEvent where
  | metric (m : MetricEvent)
  | other
deriving DecidableEq

/-- the event-group metadata keys read by the processor -/
inductive EventGroupMetaKey where
  | PROMETHEUS_STREAM_TOTAL
  | PROMETHEUS_SCRAPE_TIMESTAMP_MILLISEC
  | PROMETHEUS_SCRAPE_DURATION
  | PROMETHEUS_SCRAPE_RESPONSE_SIZE
  | PROMETHEUS_SAMPLES_SCRAPED
  | PROMETHEUS_SCRAPE_STATE
  | PROMETHEUS_UP_STATE
deriving DecidableEq

/-- lookup in the group metadata -/
def getMeta (k : EventGroupMetaKey) : List (EventGroupMetaKey × String) → Option String
  | [] => none
  | e :: rest => if e.1 = k then some e.2 else getMeta k rest

/-- a PipelineEventGroup: the batch events, the group metadata and the
group-level (ambient target) tags -/
structure PipelineEventGroup where
  events : List PipelineEvent
  metadata : List (EventGroupMetaKey × String)
  tags : List (String × String)
deriving DecidableEq

/-- the relabel rule chain, an external collaborator
(prometheus/labels/Relabel) used by the processor through Empty and
Process only: Process returns whether the event is kept and the possibly
rewritten event -/
structure MetricRelabelConfigs where
  isEmpty : Bool
  run : MetricEvent → Bool × MetricEvent

/-- the scrape configuration fields consumed by the processor -/
structure ScrapeConfig where
  mHonorLabels : Bool
  mMetricRelabelConfigs : MetricRelabelConfigs
  mExternalLabels : List (String × String)
  mSampleLimit : Nat
  mScrapeTimeoutSeconds : Nat

/-- Modelled from common/StringTools.h (not among the given sources):
decimal parse of an unsigned integer; the parsed value is never inspected
by the claims -/
def stringToU64 (s : String) : Nat :=
  s.foldl (fun acc c => if c.isDigit then acc * 10 + (c.toNat - 48) else acc) 0

/-- Modelled from common/StringTools.h (not among the given sources):
parse of a floating point value, embedded on the integral part only; the
parsed value is never inspected by the claims -/
def stringToRat (s : String) : Rat := (stringToU64 s : Rat)

/-- Modelled from common/StringTools.h (not among the given sources):
parse of a boolean -/
def stringToBool (s : String) : Bool := s == "true"

/-- handling of one ambient target tag in ProcessEvent: on a key collision
with honor_labels false, the existing value moves to the exported_ key and
the ambient value wins; with honor_labels true the event value wins; an
absent key is simply added -/
def applyTargetTag (honorLabels : Bool) (tags : List (String × String))
    (kv : String × String) : List (String × String) :=
  match lookupFirst kv.1 tags with
  | some oldv =>
      if honorLabels then tags
      else setTag (setTag tags (exportedKey kv.1) oldv) kv.1 kv.2
  | none => setTag tags kv.1 kv.2

/-- the check of the internal-reserved marker, an rfind of the double
underscore at position zero -/
def startsWithDunder (s : String) : Bool :=
  match s.data with
  | '_' :: '_' :: _ => true
  | _ => false

/-- the loop of ProcessEvent erasing every tag whose key starts with the
internal-reserved double-underscore marker -/
def stripInternalTags (tags : List (String × String)) : List (String × String) :=
  tags.filter (fun e => !(startsWithDunder e.1))

/-- handling of one configured external label in ProcessEvent, with the
same collision rule as the ambient target tags -/
def applyExternalLabel (honorLabels : Bool) (tags : List (String × String))
    (kv : String × String) : List (String × String) :=
  if hasTag tags kv.1 then
    if honorLabels then tags
    else setTag (setTag tags (exportedKey kv.1) (getTagD tags kv.1)) kv.1 kv.2
  else setTag tags kv.1 kv.2

/-- ProcessEvent: none when the event is dropped (not a metric event, or
the relabel chain signals drop), some of the rewritten event otherwise -/
def ProcessEvent (cfg : ScrapeConfig) (targetTags : List (String × String)) :
    PipelineEvent → Option PipelineEvent
  | .other => none
  | .metric ev0 =>
    let ev1 : MetricEvent :=
      { ev0 with tags := targetTags.foldl (applyTargetTag cfg.mHonorLabels) ev0.tags }
    let chainResult : Option MetricEvent :=
      if cfg.mMetricRelabelConfigs.isEmpty then some ev1
      else
        let r := cfg.mMetricRelabelConfigs.run ev1
        if r.1 then some r.2 else none
    match chainResult with
    | none => none
    | some ev2 =>
      let ev3 : MetricEvent := { ev2 with name := getTagD ev2.tags NAME }
      let ev4 : MetricEvent := { ev3 with tags := stripInternalTags ev3.tags }
      let ev5 : MetricEvent :=
        { ev4 with tags := cfg.mExternalLabels.foldl (applyExternalLabel cfg.mHonorLabels) ev4.tags }
      let ev6 : MetricEvent := { ev5 with tags := setTag ev5.tags NAME ev5.name }
      some (.metric ev6)

/-- the in-place compaction loop of Process: kept events are moved to the
write index in read order, then the vector is resized -/
def compactEvents (f : PipelineEvent → Option PipelineEvent) :
    List PipelineEvent → List PipelineEvent
  | [] => []
  | e :: rest =>
    match f e with
    | some e2 => e2 :: compactEvents f rest
    | none => compactEvents f rest

/-- the prom::AutoMetric record -/
structure AutoMetric where
  mScrapeDurationSeconds : Rat
  mScrapeResponseSizeBytes : Nat
  mScrapeSamplesLimit : Nat
  mScrapeSamplesScraped : Nat
  mScrapeTimeoutSeconds : Nat
  mScrapeState : String
  mUp : Bool

def AutoMetric.init : AutoMetric := ⟨0, 0, 0, 0, 0, "", false⟩

/-- UpdateAutoMetrics fills the AutoMetric record from the group metadata
and the scrape configuration -/
def UpdateAutoMetrics (cfg : ScrapeConfig) (g : PipelineEventGroup)
    (am0 : AutoMetric) : AutoMetric :=
  let am1 := match getMeta .PROMETHEUS_SCRAPE_DURATION g.metadata with
    | some s => { am0 with mScrapeDurationSeconds := stringToRat s }
    | none => am0
  let am2 := match getMeta .PROMETHEUS_SCRAPE_RESPONSE_SIZE g.metadata with
    | some s => { am1 with mScrapeResponseSizeBytes := stringToU64 s }
    | none => am1
  let am3 := { am2 with mScrapeSamplesLimit := cfg.mSampleLimit }
  let am4 := match getMeta .PROMETHEUS_SAMPLES_SCRAPED g.metadata with
    | some s => { am3 with mScrapeSamplesScraped := stringToU64 s }
    | none => am3
  let am5 := { am4 with mScrapeTimeoutSeconds := cfg.mScrapeTimeoutSeconds }
  let am6 := match getMeta .PROMETHEUS_SCRAPE_STATE g.metadata with
    | some s => { am5 with mScrapeState := s }
    | none => am5
  match getMeta .PROMETHEUS_UP_STATE g.metadata with
  | some s => { am6 with mUp := stringToBool s }
  | none => am6

/-- AddMetric appends one synthesized metric event carrying the name tag
and the non-internal ambient target tags -/
def AddMetric (g : PipelineEventGroup) (name : String) (value : Rat)
    (timestamp nanoSec : Nat) (targetTags : List (String × String)) :
    PipelineEventGroup :=
  let tags := targetTags.foldl
    (fun tg kv => if startsWithDunder kv.1 then tg else setTag tg kv.1 kv.2)
    [(NAME, name)]
  { g with events := g.events ++ [.metric ⟨name, value, timestamp, nanoSec, tags⟩] }

/-- mutation of the last event of the batch in place -/
def modifyLast (f : PipelineEvent → PipelineEvent) :
    List PipelineEvent → List PipelineEvent
  | [] => []
  | [e] => [f e]
  | e :: rest => e :: modifyLast f rest

/-- SetTag of the status label on a metric event; on the reachable path
the mutated event is always the metric event just appended -/
def setStatusTag (st : String) : PipelineEvent → PipelineEvent
  | .metric m => .metric { m with tags := setTag m.tags METRIC_LABEL_KEY_STATUS st }
  | .other => .other

/-- AddAutoMetrics synthesizes the per-scrape meta metrics; when the
scrape-timestamp metadata is absent it logs and returns with the group
unchanged -/
def AddAutoMetrics (g : PipelineEventGroup) (am : AutoMetric) :
    PipelineEventGroup :=
  let targetTags := g.tags
  match getMeta .PROMETHEUS_SCRAPE_TIMESTAMP_MILLISEC g.metadata with
  | none => g
  | some tsStr =>
    let ms := stringToU64 tsStr
    let timestamp := ms / 1000
    let nanoSec := ms % 1000 * 1000000
    let g1 := AddMetric g SCRAPE_DURATION_SECONDS am.mScrapeDurationSeconds
      timestamp nanoSec targetTags
    let g2 := AddMetric g1 SCRAPE_RESPONSE_SIZE_BYTES
      (am.mScrapeResponseSizeBytes : Rat) timestamp nanoSec targetTags
    let g3 := if 0 < am.mScrapeSamplesLimit then
        AddMetric g2 SCRAPE_SAMPLES_LIMIT (am.mScrapeSamplesLimit : Rat)
          timestamp nanoSec targetTags
      else g2
    let g4 := AddMetric g3 SCRAPE_SAMPLES_SCRAPED
      (am.mScrapeSamplesScraped : Rat) timestamp nanoSec targetTags
    let g5 := AddMetric g4 SCRAPE_TIMEOUT_SECONDS
      (am.mScrapeTimeoutSeconds : Rat) timestamp nanoSec targetTags
    let g6 := AddMetric g5 SCRAPE_STATE (if am.mUp then 1 else 0)
      timestamp nanoSec targetTags
    let scrapeState := (getMeta .PROMETHEUS_SCRAPE_STATE g6.metadata).getD ""
    let g7 := { g6 with events := modifyLast (setStatusTag scrapeState) g6.events }
    AddMetric g7 UP (if am.mUp then 1 else 0) timestamp nanoSec targetTags

/-- Process: compaction of the batch through ProcessEvent unless both the
relabel chain and the ambient tag set are empty, then the auto-metrics
step when the stream-total metadata is present, then removal of all
ambient tags from the group level -/
def Process (cfg : ScrapeConfig) (g0 : PipelineEventGroup) : PipelineEventGroup :=
  let targetTags := g0.tags
  let g1 := if cfg.mMetricRelabelConfigs.isEmpty = false ∨ targetTags ≠ [] then
      { g0 with events := compactEvents (ProcessEvent cfg targetTags) g0.events }
    else g0
  let g2 := if (getMeta .PROMETHEUS_STREAM_TOTAL g1.metadata).isSome then
      AddAutoMetrics g1 (UpdateAutoMetrics cfg g1 AutoMetric.init)
    else g1
  { g2 with tags := targetTags.foldl (fun ts kv => eraseFirst kv.1 ts) g2.tags }

/-! Data model of the remote-write serializer (RemoteWriteSerializer.cpp).
The protobuf WriteRequest is embedded at field level: a list of
time-series, each a label list plus a sample list. -/

/-- one prometheus::TimeSeries of the WriteRequest -/
structure TimeSeries where
  labels : List (String × String)
  samples : List (Rat × Nat)
deriving DecidableEq

/-- the time-series built from one metric event: its tags become the label
list, a name label is synthesized when no name label is present, and one
sample carries the value and the timestamp converted to milliseconds -/
def serializeMetricEvent (m : MetricEvent) : TimeSeries :=
  { labels := m.tags ++ (if getTagD m.tags NAME = "" then [(NAME, m.name)] else []),
    samples := [(m.value, m.timestamp * 1000)] }

/-- the event loop of Serialize: a non-metric event sets the error message
and is skipped, a metric event appends one time-series -/
def serializeLoop : List PipelineEvent → List TimeSeries → String →
    List TimeSeries × String
  | [], acc, err => (acc, err)
  | .other :: rest, acc, _ => serializeLoop rest acc "event is not a metric event"
  | .metric m :: rest, acc, err => serializeLoop rest (acc ++ [serializeMetricEvent m]) err

/-- Serialize of RemoteWriteEventGroupSerializer: returns the success
flag, the encoded request and the error message -/
def Serialize (events : List PipelineEvent) (errorMsg0 : String) :
    Bool × List TimeSeries × String :=
  let r := serializeLoop events [] errorMsg0
  (true, r.1, r.2)

/-! Modelled from the spec: the EventPool (models/EventPool.h and .cpp are
not among the given sources; only EventPoolUnittest.cpp is). The model
follows sections 3 and 4.2 of the spec and the expectations of the
unittest: one free list per variant (the LogEvent list is modelled, in
unlocked mode), a watermark mMinUnusedLogEventsCnt reset to the untouched
marker numeric_limits max, and GC that drops from the primary list the
number of entries recorded by the watermark, the whole list when the
watermark is untouched. Pooled events are identified by numeric handles. -/

/-- the numeric_limits size_t max untouched marker -/
def sizeMax : Nat := u64 - 1

/-- Modelled from the spec: the EventPool state for the LogEvent variant
in unlocked mode -/
structure EventPool where
  mLogEventPool : List Nat
  mMinUnusedLogEventsCnt : Nat
  nextId : Nat
deriving DecidableEq

def EventPool.init : EventPool := ⟨[], sizeMax, 0⟩

/-- Modelled from the spec: Acquire pops from the back of the free list
when it is non-empty, recording a new watermark low, and allocates fresh
otherwise (the unittest shows a fresh allocation leaves the watermark
untouched) -/
def AcquireLogEvent (p : EventPool) : Nat × EventPool :=
  match p.mLogEventPool.getLast? with
  | none => (p.nextId, { p with nextId := p.nextId + 1 })
  | some e =>
      let pool := p.mLogEventPool.dropLast
      (e, { p with mLogEventPool := pool,
                   mMinUnusedLogEventsCnt := min p.mMinUnusedLogEventsCnt pool.length })

/-- Modelled from the spec: Release returns the events to the free list -/
def ReleaseLogEvents (p : EventPool) (es : List Nat) : EventPool :=
  { p with mLogEventPool := p.mLogEventPool ++ es }

/-- Modelled from the spec: CheckGC drops the entries that were idle for
the whole cycle, as recorded by the watermark (the whole list when the
watermark stayed untouched), and resets the watermark to the untouched
marker -/
def CheckGC (p : EventPool) : EventPool :=
  let pool :=
    if 0 < p.mMinUnusedLogEventsCnt then
      p.mLogEventPool.drop
        (if p.mMinUnusedLogEventsCnt = sizeMax then p.mLogEventPool.length
         else p.mMinUnusedLogEventsCnt)
    else p.mLogEventPool
  { p with mLogEventPool := pool, mMinUnusedLogEventsCnt := sizeMax }

/-- acquire a number of events in sequence -/
def AcquireMany : Nat → EventPool → List Nat × EventPool
  | 0, p => ([], p)
  | n + 1, p =>
      let r := AcquireLogEvent p
      let r2 := AcquireMany n r.2
      (r.1 :: r2.1, r2.2)

/-! Claim theorems. -/

/-- C1: for every sequence of the SizedTagContainer mutating operations
starting from an empty container (duplicate-key inserts included), the
tracked size field mAllocatedSize equals the sum of len(name)+len(value)
over all live entries after every operation, and DataSize equals that sum
plus the fixed container overhead; stated for the StringView-pair
SizedVector specialization and for SizedMap, under the size_t-intrinsic
bound that the footprint stays below 2^64 -/
theorem sized_container_tracked_size_c1 (vops : List VecOp) (mops : List MapOp)
    (h1 : SizedVectorSV.sizeofStdVector + liveSum (runVec vops).mInner < u64)
    (h2 : SizedMap.sizeofStdMap + liveSum (runMap mops).mInner < u64) :
    (runVec vops).mAllocatedSize = liveSum (runVec vops).mInner
      ∧ (runVec vops).DataSize
          = SizedVectorSV.sizeofStdVector + liveSum (runVec vops).mInner
      ∧ (runMap mops).mAllocatedSize = liveSum (runMap mops).mInner
      ∧ (runMap mops).DataSize
          = SizedMap.sizeofStdMap + liveSum (runMap mops).mInner := by
  obtain ⟨hz1, hlt1⟩ := runVec_good vops
  obtain ⟨hz2, hlt2⟩ := runMap_good mops
  have hS1 : liveSum (runVec vops).mInner < u64 :=
    lt_of_le_of_lt (Nat.le_add_left _ _) h1
  have hS2 : liveSum (runMap mops).mInner < u64 :=
    lt_of_le_of_lt (Nat.le_add_left _ _) h2
  have e1 : (runVec vops).mAllocatedSize = liveSum (runVec vops).mInner :=
    zmod_eq_of_lt hz1 hlt1 hS1
  have e2 : (runMap mops).mAllocatedSize = liveSum (runMap mops).mInner :=
    zmod_eq_of_lt hz2 hlt2 hS2
  refine ⟨e1, ?_, e2, ?_⟩
  · rw [SizedVectorSV.DataSize, e1, uadd, Nat.mod_eq_of_lt h1]
  · rw [SizedMap.DataSize, e2, uadd, Nat.mod_eq_of_lt h2]

/-- a concrete operation sequence on the vector container, with a
duplicate-key insert -/
def wVecOps : List VecOp :=
  [.insert "job" "prometheus", .insert "job" "p2", .pushBack "instance" "h1",
   .setNameByIndex 0 "jb", .erase "instance", .pushBack "job" "dup"]

/-- a concrete operation sequence on the map container, with a
duplicate-key insert -/
def wMapOps : List MapOp :=
  [.insert "a" "1", .insert "a" "22", .erase "zz", .insert "c" "3"]

theorem sized_container_tracked_size_c1_witness :
    (SizedVectorSV.sizeofStdVector + liveSum (runVec wVecOps).mInner < u64
      ∧ SizedMap.sizeofStdMap + liveSum (runMap wMapOps).mInner < u64)
    ∧ ((runVec wVecOps).mAllocatedSize = liveSum (runVec wVecOps).mInner
      ∧ (runVec wVecOps).DataSize
          = SizedVectorSV.sizeofStdVector + liveSum (runVec wVecOps).mInner
      ∧ (runMap wMapOps).mAllocatedSize = liveSum (runMap wMapOps).mInner
      ∧ (runMap wMapOps).DataSize
          = SizedMap.sizeofStdMap + liveSum (runMap wMapOps).mInner) :=
  ⟨⟨by decide, by decide⟩,
   sized_container_tracked_size_c1 wVecOps wMapOps (by decide) (by decide)⟩

/-- the metric event of the spec test for the serializer -/
def c6Event : MetricEvent :=
  ⟨"cpu_usage", mkRat 1 2, 1000, 0, [("instance", "h1")]⟩

/-- C6: serializing a batch of exactly one metric event named cpu_usage
with tag set instance h1, value one half and timestamp 1000 seconds
produces one time-series whose labels are the instance tag plus a
synthesized name label, and exactly one sample of the value at 1000000
milliseconds -/
theorem serializer_single_event_c6 :
    Serialize [.metric c6Event] ""
      = (true,
         [⟨[("instance", "h1"), (NAME, "cpu_usage")], [(mkRat 1 2, 1000000)]⟩],
         "") := by
  decide

/-- shared helper: AddAutoMetrics is the identity when the
scrape-timestamp metadata is absent -/
theorem addAutoMetrics_none (g : PipelineEventGroup) (am : AutoMetric)
    (h : getMeta .PROMETHEUS_SCRAPE_TIMESTAMP_MILLISEC g.metadata = none) :
    AddAutoMetrics g am = g := by
  unfold AddAutoMetrics
  rw [h]

/-- C7: when the scrape-timestamp metadata is absent, the auto-metrics
step returns without appending any event and leaves the batch and the
group state unchanged -/
theorem auto_metrics_missing_timestamp_c7 (g : PipelineEventGroup) (am : AutoMetric)
    (h : getMeta .PROMETHEUS_SCRAPE_TIMESTAMP_MILLISEC g.metadata = none) :
    AddAutoMetrics g am = g :=
  addAutoMetrics_none g am h

/-- a group without the scrape-timestamp metadata -/
def c7Group : PipelineEventGroup :=
  ⟨[.metric c6Event], [(.PROMETHEUS_STREAM_TOTAL, "1")], [("job", "j")]⟩

theorem auto_metrics_missing_timestamp_c7_witness :
    getMeta .PROMETHEUS_SCRAPE_TIMESTAMP_MILLISEC c7Group.metadata = none
    ∧ AddAutoMetrics c7Group AutoMetric.init = c7Group :=
  ⟨by decide,
   auto_metrics_missing_timestamp_c7 c7Group AutoMetric.init (by decide)⟩

/-- the time-series of one event, none for a non-metric event -/
def tsOfEvent : PipelineEvent → Option TimeSeries
  | .metric m => some (serializeMetricEvent m)
  | .other => none

/-- shared helper: the serializer loop appends one time-series per metric
event, skips non-metric events and overwrites the error message on each
non-metric event -/
theorem serializeLoop_spec (events : List PipelineEvent) (acc : List TimeSeries)
    (err : String) :
    serializeLoop events acc err
      = (acc ++ events.filterMap tsOfEvent,
         if PipelineEvent.other ∈ events then "event is not a metric event" else err) := by
  induction events generalizing acc err with
  | nil => simp [serializeLoop]
  | cons e rest ih =>
    cases e with
    | metric m =>
      simp [serializeLoop, ih, tsOfEvent, List.filterMap_cons]
    | other =>
      simp [serializeLoop, ih, tsOfEvent, List.filterMap_cons]

/-- C8: for every batch, each non-metric event contributes no time-series
and only sets the returned error message, every other event is still
serialized in order, and Serialize returns true -/
theorem serializer_skip_nonmetric_c8 (events : List PipelineEvent) (errorMsg0 : String) :
    Serialize events errorMsg0
      = (true,
         events.filterMap tsOfEvent,
         if PipelineEvent.other ∈ events then "event is not a metric event"
         else errorMsg0) := by
  unfold Serialize
  rw [serializeLoop_spec]
  simp

/-- C10: the serializer computes every sample timestamp as the whole-second
event timestamp times 1000 and discards the nanosecond component, so two
metric events differing only in the nanosecond field serialize identically -/
theorem serializer_timestamp_truncation_c10 (m : MetricEvent) (n1 n2 : Nat) :
    serializeMetricEvent { m with nanoSec := n1 }
        = serializeMetricEvent { m with nanoSec := n2 }
      ∧ (serializeMetricEvent m).samples = [(m.value, m.timestamp * 1000)] :=
  ⟨rfl, rfl⟩

/-- the empty relabel rule chain -/
def emptyChain : MetricRelabelConfigs := ⟨true, fun e => (true, e)⟩

/-- a scrape configuration with honor_labels false, no relabel rules and
no external labels -/
def cfgNoHonor : ScrapeConfig := ⟨false, emptyChain, [], 0, 0⟩

/-- a scrape configuration with honor_labels true, no relabel rules and
no external labels -/
def cfgHonor : ScrapeConfig := ⟨true, emptyChain, [], 0, 0⟩

/-- a metric event carrying exactly the tag job with the given value -/
def jobEvent (a : String) : MetricEvent := ⟨"m", 1, 0, 0, [("job", a)]⟩

/-- C3: for a metric event with tag job=A against ambient tag job=B, with
honor_labels false the result has job=B and exported_job=A; with
honor_labels true it has job=A and no exported_job; an ambient tag whose
key is absent from the event is simply added (the processor also strips
internal tags and appends the name tag, shown explicitly) -/
theorem relabel_collision_c3 (a b : String) :
    ProcessEvent cfgNoHonor [("job", b)] (.metric (jobEvent a))
        = some (.metric ⟨"", 1, 0, 0, [("job", b), ("exported_job", a), ("__name__", "")]⟩)
      ∧ ProcessEvent cfgHonor [("job", b)] (.metric (jobEvent a))
        = some (.metric ⟨"", 1, 0, 0, [("job", a), ("__name__", "")]⟩)
      ∧ ProcessEvent cfgNoHonor [("instance", b)] (.metric (jobEvent a))
        = some (.metric ⟨"", 1, 0, 0, [("job", a), ("instance", b), ("__name__", "")]⟩)
      ∧ lookupFirst "exported_job" [("job", a), ("__name__", "")] = none :=
  ⟨rfl, rfl, rfl, rfl⟩

/-- a metric event that already carries both job and exported_job tags -/
def c4Event : MetricEvent := ⟨"m", 1, 0, 0, [("job", "A"), ("exported_job", "C")]⟩

/-- counterexample to C4: with an event carrying job=A and exported_job=C
and ambient tag job=B under honor_labels false, the code overwrites
exported_job with A and discards C; no exported_exported_job tag exists,
contrary to the claimed cascading rename -/
theorem relabel_cascade_c4_counterexample :
    ProcessEvent cfgNoHonor [("job", "B")] (.metric c4Event)
        = some (.metric ⟨"", 1, 0, 0, [("job", "B"), ("exported_job", "A"), ("__name__", "")]⟩)
      ∧ lookupFirst "exported_exported_job"
          [("job", "B"), ("exported_job", "A"), ("__name__", "")] = none
      ∧ lookupFirst "exported_job"
          [("job", "B"), ("exported_job", "A"), ("__name__", "")] ≠ some "C" := by
  decide

/-- C4 amended: when honor_labels is false and the event already has both
tag k and tag exported_k, processing an ambient tag (k, v) overwrites the
existing exported_k tag with the event value of k — the pre-existing
exported_k value is discarded, with no cascading rename — and then sets
k = v (stated at k = job) -/
theorem relabel_cascade_c4 (a b c : String) :
    ProcessEvent cfgNoHonor [("job", b)]
        (.metric ⟨"m", 1, 0, 0, [("job", a), ("exported_job", c)]⟩)
      = some (.metric ⟨"", 1, 0, 0, [("job", b), ("exported_job", a), ("__name__", "")]⟩) :=
  rfl

/-- the list of events appended by AddAutoMetrics when the
scrape-timestamp metadata is present -/
def autoMetricsTail (am : AutoMetric) (timestamp nanoSec : Nat)
    (targetTags : List (String × String)) (scrapeState : String) :
    List PipelineEvent :=
  let mk : String → Rat → PipelineEvent := fun name value =>
    .metric ⟨name, value, timestamp, nanoSec,
      targetTags.foldl
        (fun tg kv => if startsWithDunder kv.1 then tg else setTag tg kv.1 kv.2)
        [(NAME, name)]⟩
  [mk SCRAPE_DURATION_SECONDS am.mScrapeDurationSeconds,
   mk SCRAPE_RESPONSE_SIZE_BYTES (am.mScrapeResponseSizeBytes : Rat)]
  ++ (if 0 < am.mScrapeSamplesLimit then
        [mk SCRAPE_SAMPLES_LIMIT (am.mScrapeSamplesLimit : Rat)]
      else [])
  ++ [mk SCRAPE_SAMPLES_SCRAPED (am.mScrapeSamplesScraped : Rat),
      mk SCRAPE_TIMEOUT_SECONDS (am.mScrapeTimeoutSeconds : Rat),
      setStatusTag scrapeState (mk SCRAPE_STATE (if am.mUp then 1 else 0)),
      mk UP (if am.mUp then 1 else 0)]

theorem modifyLast_append_single (f : PipelineEvent → PipelineEvent)
    (l : List PipelineEvent) (e : PipelineEvent) :
    modifyLast f (l ++ [e]) = l ++ [f e] := by
  induction l with
  | nil => rfl
  | cons x rest ih =>
    cases rest with
    | nil => rfl
    | cons y t =>
      have hstep : modifyLast f ((x :: y :: t) ++ [e])
          = x :: modifyLast f ((y :: t) ++ [e]) := rfl
      rw [hstep, ih]
      rfl

theorem updateAutoMetrics_limit (cfg : ScrapeConfig) (g : PipelineEventGroup)
    (am0 : AutoMetric) :
    (UpdateAutoMetrics cfg g am0).mScrapeSamplesLimit = cfg.mSampleLimit := by
  unfold UpdateAutoMetrics
  cases getMeta .PROMETHEUS_SCRAPE_DURATION g.metadata <;>
    cases getMeta .PROMETHEUS_SCRAPE_RESPONSE_SIZE g.metadata <;>
    cases getMeta .PROMETHEUS_SAMPLES_SCRAPED g.metadata <;>
    cases getMeta .PROMETHEUS_SCRAPE_STATE g.metadata <;>
    cases getMeta .PROMETHEUS_UP_STATE g.metadata <;>
    rfl

/-- shared helper: the events after AddAutoMetrics when the
scrape-timestamp metadata is present -/
theorem addAutoMetrics_events_some (g : PipelineEventGroup) (am : AutoMetric)
    (s : String)
    (h : getMeta .PROMETHEUS_SCRAPE_TIMESTAMP_MILLISEC g.metadata = some s) :
    (AddAutoMetrics g am).events
      = g.events
        ++ autoMetricsTail am (stringToU64 s / 1000) (stringToU64 s % 1000 * 1000000)
            g.tags ((getMeta .PROMETHEUS_SCRAPE_STATE g.metadata).getD "") := by
  unfold AddAutoMetrics
  rw [h]
  simp only [AddMetric, autoMetricsTail]
  by_cases hl : 0 < am.mScrapeSamplesLimit
  · simp only [if_pos hl]
    rw [modifyLast_append_single]
    simp [List.append_assoc]
  · simp only [if_neg hl]
    rw [modifyLast_append_single]
    simp [List.append_assoc]

/-- C2: when the scrape-timestamp metadata is present, the auto-metrics
appended to the batch are scrape_duration_seconds,
scrape_response_size_bytes, scrape_samples_limit (only when the configured
sample limit is positive), scrape_samples_scraped, scrape_timeout_seconds,
the scrape-state metric and up, in exactly that order; up is the last
event and the status tag of the scrape-state metric is set just before up
is appended, as autoMetricsTail spells out -/
theorem auto_metrics_ordering_c2 (cfg : ScrapeConfig) (g : PipelineEventGroup)
    (s : String)
    (h : getMeta .PROMETHEUS_SCRAPE_TIMESTAMP_MILLISEC g.metadata = some s) :
    (UpdateAutoMetrics cfg g AutoMetric.init).mScrapeSamplesLimit = cfg.mSampleLimit
    ∧ (AddAutoMetrics g (UpdateAutoMetrics cfg g AutoMetric.init)).events
      = g.events
        ++ autoMetricsTail (UpdateAutoMetrics cfg g AutoMetric.init)
            (stringToU64 s / 1000) (stringToU64 s % 1000 * 1000000)
            g.tags ((getMeta .PROMETHEUS_SCRAPE_STATE g.metadata).getD "") :=
  ⟨updateAutoMetrics_limit cfg g AutoMetric.init,
   addAutoMetrics_events_some g (UpdateAutoMetrics cfg g AutoMetric.init) s h⟩

/-- a scrape configuration with a positive sample limit -/
def c2Cfg : ScrapeConfig := ⟨false, emptyChain, [], 5, 30⟩

/-- a group carrying scrape metadata, the scrape timestamp included -/
def c2Group : PipelineEventGroup :=
  ⟨[.metric c6Event],
   [(.PROMETHEUS_STREAM_TOTAL, "1"),
    (.PROMETHEUS_SCRAPE_TIMESTAMP_MILLISEC, "1234"),
    (.PROMETHEUS_SCRAPE_STATE, "OK"),
    (.PROMETHEUS_UP_STATE, "true")],
   [("job", "j"), ("__internal", "x")]⟩

theorem auto_metrics_ordering_c2_witness :
    getMeta .PROMETHEUS_SCRAPE_TIMESTAMP_MILLISEC c2Group.metadata = some "1234"
    ∧ ((UpdateAutoMetrics c2Cfg c2Group AutoMetric.init).mScrapeSamplesLimit
          = c2Cfg.mSampleLimit
      ∧ (AddAutoMetrics c2Group (UpdateAutoMetrics c2Cfg c2Group AutoMetric.init)).events
        = c2Group.events
          ++ autoMetricsTail (UpdateAutoMetrics c2Cfg c2Group AutoMetric.init)
              (stringToU64 "1234" / 1000) (stringToU64 "1234" % 1000 * 1000000)
              c2Group.tags
              ((getMeta .PROMETHEUS_SCRAPE_STATE c2Group.metadata).getD "")) :=
  ⟨by decide, auto_metrics_ordering_c2 c2Cfg c2Group "1234" (by decide)⟩

/-- shared helper: AddAutoMetrics only ever appends events -/
theorem addAutoMetrics_events_prefix (g : PipelineEventGroup) (am : AutoMetric) :
    ∃ tail, (AddAutoMetrics g am).events = g.events ++ tail := by
  cases hts : getMeta .PROMETHEUS_SCRAPE_TIMESTAMP_MILLISEC g.metadata with
  | none => exact ⟨[], by rw [addAutoMetrics_none g am hts]; simp⟩
  | some ts => exact ⟨_, addAutoMetrics_events_some g am ts hts⟩

theorem compactEvents_eq_filterMap (f : PipelineEvent → Option PipelineEvent)
    (l : List PipelineEvent) : compactEvents f l = l.filterMap f := by
  induction l with
  | nil => rfl
  | cons e rest ih => cases hf : f e <;> simp [compactEvents, hf, ih]

/-- a batch holding one non-metric event, no metadata and no ambient tags -/
def c5FastGroup : PipelineEventGroup := ⟨[.other], [], []⟩

/-- counterexample to C5: on the fast no-op path (empty relabel chain and
empty ambient tag set) the compaction loop is skipped entirely, so a
non-metric event survives into the output batch instead of being
excluded -/
theorem relabel_compaction_c5_counterexample :
    (Process cfgHonor c5FastGroup).events = [.other] := by
  decide

/-- C5 amended: whenever the compaction actually runs, that is when the
relabel chain is non-empty or the ambient tag set is non-empty, the output
batch is exactly the surviving events in input order (ProcessEvent drops
non-metric events and chain-dropped events), followed only by the
auto-metrics tail, which is empty when the stream-total metadata is
absent -/
theorem relabel_compaction_c5 (cfg : ScrapeConfig) (g : PipelineEventGroup)
    (h : cfg.mMetricRelabelConfigs.isEmpty = false ∨ g.tags ≠ []) :
    ProcessEvent cfg g.tags .other = none
    ∧ ∃ tail, (Process cfg g).events
        = g.events.filterMap (ProcessEvent cfg g.tags) ++ tail
      ∧ ((getMeta .PROMETHEUS_STREAM_TOTAL g.metadata).isSome = false → tail = []) := by
  refine ⟨rfl, ?_⟩
  unfold Process
  simp only [if_pos h, compactEvents_eq_filterMap]
  by_cases hst : (getMeta .PROMETHEUS_STREAM_TOTAL g.metadata).isSome
  · simp only [hst, if_true]
    obtain ⟨tail, htail⟩ := addAutoMetrics_events_prefix
      { events := g.events.filterMap (ProcessEvent cfg g.tags),
        metadata := g.metadata, tags := g.tags }
      (UpdateAutoMetrics cfg
        { events := g.events.filterMap (ProcessEvent cfg g.tags),
          metadata := g.metadata, tags := g.tags }
        AutoMetric.init)
    exact ⟨tail, htail, fun hc => by simp [hst] at hc⟩
  · simp only [hst, if_false]
    exact ⟨[], by simp, fun _ => rfl⟩

/-- a batch where the compaction runs: one non-metric event and one metric
event, with a non-empty ambient tag set -/
def c5WGroup : PipelineEventGroup :=
  ⟨[.other, .metric (jobEvent "A")], [], [("job", "B")]⟩

theorem relabel_compaction_c5_witness :
    (cfgNoHonor.mMetricRelabelConfigs.isEmpty = false ∨ c5WGroup.tags ≠ [])
    ∧ (ProcessEvent cfgNoHonor c5WGroup.tags .other = none
      ∧ ∃ tail, (Process cfgNoHonor c5WGroup).events
          = c5WGroup.events.filterMap (ProcessEvent cfgNoHonor c5WGroup.tags) ++ tail
        ∧ ((getMeta .PROMETHEUS_STREAM_TOTAL c5WGroup.metadata).isSome = false
            → tail = [])) :=
  ⟨Or.inr (by decide),
   relabel_compaction_c5 cfgNoHonor c5WGroup (Or.inr (by decide))⟩

/-- Modelled from the spec: scenario of the GC claim — acquire n, release
all n, one CheckGC -/
def gcScenarioOne (n : Nat) : EventPool :=
  let r := AcquireMany n EventPool.init
  CheckGC (ReleaseLogEvents r.2 r.1)

/-- Modelled from the spec: scenario of the GC claim — acquire n, release
all n, acquire and re-release one instance, one CheckGC -/
def gcScenarioTwo (n : Nat) : EventPool :=
  let r := AcquireMany n EventPool.init
  let p1 := ReleaseLogEvents r.2 r.1
  let r2 := AcquireLogEvent p1
  let p2 := ReleaseLogEvents r2.2 [r2.1]
  CheckGC p2

theorem sizeMax_pos : 0 < sizeMax := by decide

theorem acquireLogEvent_empty (p : EventPool) (h : p.mLogEventPool = []) :
    AcquireLogEvent p = (p.nextId, { p with nextId := p.nextId + 1 }) := by
  simp [AcquireLogEvent, h]

theorem acquireMany_empty (n : Nat) (p : EventPool) (h : p.mLogEventPool = []) :
    (AcquireMany n p).1.length = n
    ∧ (AcquireMany n p).2.mLogEventPool = []
    ∧ (AcquireMany n p).2.mMinUnusedLogEventsCnt = p.mMinUnusedLogEventsCnt := by
  induction n generalizing p with
  | zero => simp [AcquireMany, h]
  | succ m ih =>
    have hp := acquireLogEvent_empty p h
    obtain ⟨ih1, ih2, ih3⟩ := ih { p with nextId := p.nextId + 1 } h
    simp [AcquireMany, hp, ih1, ih2, ih3]

theorem checkGC_min (p : EventPool) :
    (CheckGC p).mMinUnusedLogEventsCnt = sizeMax := rfl

theorem gc_scenario_one_spec (n : Nat) :
    (gcScenarioOne n).mLogEventPool = []
    ∧ (gcScenarioOne n).mMinUnusedLogEventsCnt = sizeMax := by
  obtain ⟨hlen, hpool, hmin⟩ := acquireMany_empty n EventPool.init rfl
  have hminv : (AcquireMany n EventPool.init).2.mMinUnusedLogEventsCnt = sizeMax := hmin
  unfold gcScenarioOne
  refine ⟨?_, checkGC_min _⟩
  simp [CheckGC, ReleaseLogEvents, hpool, hminv, sizeMax_pos, List.drop_length]

/-- core of the second GC scenario over an arbitrary released list -/
theorem gc_core (p : EventPool) (es : List Nat) (hpool : p.mLogEventPool = [])
    (hmin : p.mMinUnusedLogEventsCnt = sizeMax)
    (hn : 0 < es.length) (hu : es.length < u64) :
    (CheckGC (ReleaseLogEvents (AcquireLogEvent (ReleaseLogEvents p es)).2
        [(AcquireLogEvent (ReleaseLogEvents p es)).1])).mLogEventPool.length = 1 := by
  have hne : es ≠ [] := List.ne_nil_of_length_pos hn
  cases hl : es.getLast? with
  | none => exact absurd (List.getLast?_eq_none_iff.mp hl) hne
  | some e =>
    have hstep : AcquireLogEvent (ReleaseLogEvents p es)
        = (e, { ReleaseLogEvents p es with
                mLogEventPool := es.dropLast,
                mMinUnusedLogEventsCnt := min sizeMax es.dropLast.length }) := by
      simp [AcquireLogEvent, ReleaseLogEvents, hpool, hmin, hl]
    rw [hstep]
    have hdl : es.dropLast.length = es.length - 1 := List.length_dropLast es
    have hsm : sizeMax = u64 - 1 := rfl
    have hpos : 0 < u64 := u64_pos
    have hle : es.length - 1 ≤ sizeMax := by omega
    have hminv : min sizeMax es.dropLast.length = es.length - 1 := by
      rw [hdl]
      exact Nat.min_eq_right hle
    simp only [CheckGC, ReleaseLogEvents]
    rw [hminv]
    by_cases h1 : es.length = 1
    · rw [if_neg (by omega)]
      simp [List.length_dropLast]
      omega
    · have h2 : 2 ≤ es.length := by omega
      have hsp : 0 < sizeMax := sizeMax_pos
      have hne2 : es.length - 1 ≠ sizeMax := by omega
      rw [if_pos (by omega), if_neg hne2]
      simp [List.length_drop, List.length_dropLast]

theorem gc_scenario_two_spec (n : Nat) (hn : 0 < n) (hu : n < u64) :
    (gcScenarioTwo n).mLogEventPool.length = 1
    ∧ (gcScenarioTwo n).mMinUnusedLogEventsCnt = sizeMax := by
  obtain ⟨hlen, hpool, hmin⟩ := acquireMany_empty n EventPool.init rfl
  have hminv : (AcquireMany n EventPool.init).2.mMinUnusedLogEventsCnt = sizeMax := hmin
  unfold gcScenarioTwo
  refine ⟨?_, checkGC_min _⟩
  exact gc_core (AcquireMany n EventPool.init).2 (AcquireMany n EventPool.init).1
    hpool hminv (by omega) (by omega)

/-- C9: acquiring n events then releasing all n, one CheckGC reclaims
exactly the entries idle for the full cycle as measured by the watermark
(here all n, the watermark having stayed untouched) and resets the
watermark to the untouched marker; acquiring and re-releasing one instance
between the release and the CheckGC prevents reclamation of exactly that
one slot, leaving the free list at size 1 with the watermark reset -/
theorem event_pool_gc_c9 (n : Nat) (hn : 0 < n) (hu : n < u64) :
    ((gcScenarioOne n).mLogEventPool = []
      ∧ (gcScenarioOne n).mMinUnusedLogEventsCnt = sizeMax)
    ∧ ((gcScenarioTwo n).mLogEventPool.length = 1
      ∧ (gcScenarioTwo n).mMinUnusedLogEventsCnt = sizeMax) :=
  ⟨gc_scenario_one_spec n, gc_scenario_two_spec n hn hu⟩

theorem event_pool_gc_c9_witness :
    (0 < 3 ∧ 3 < u64)
    ∧ (((gcScenarioOne 3).mLogEventPool = []
        ∧ (gcScenarioOne 3).mMinUnusedLogEventsCnt = sizeMax)
      ∧ ((gcScenarioTwo 3).mLogEventPool.length = 1
        ∧ (gcScenarioTwo 3).mMinUnusedLogEventsCnt = sizeMax)) :=
  ⟨⟨by decide, by decide⟩, event_pool_gc_c9 3 (by decide) (by decide)⟩

end Ilogtail
